import Mathlib

/-!
Verification of the numeric, range and string-conversion utilities of
`cyberdog_gazebo/include/ctrl_ros/utilities/utilities.h`.

The utilities are C++ templates over a scalar type `T`; they are embedded here
over the rationals `ℚ` (an archimedean linear ordered field with a decidable
order, so every definition is executable and the template arithmetic —
subtraction, absolute value, comparison, division — is exact).  Fallible
operations (the thrown `std::runtime_error` / `std::out_of_range`, and the
tripped `assert`) are embedded as `Except` / `Option` results.
-/

namespace Cyberdog

/-- Embeds `IsNumbersEqual` (utilities.h lines 33-35):
`return std::abs( a - b ) <= tol;`. -/
def IsNumbersEqual (a b tol : ℚ) : Bool :=
  decide (|a - b| ≤ tol)

/-- Embeds the value computed by `WrapRange` (utilities.h lines 64-74) once the
assertion has passed: `result = target; if (result < min) result = min;
if (max < result) result = max; return result;`. -/
def WrapRangeValue (target mn mx : ℚ) : ℚ :=
  let r1 := if target < mn then mn else target
  if mx < r1 then mx else r1

/-- Embeds `WrapRange` (utilities.h lines 64-74).  The function executes
`assert( min <= max );` before clamping; a tripped assertion (fatal, no value
is ever produced) is embedded as `none`. -/
def WrapRange (target mn mx : ℚ) : Option ℚ :=
  if mn ≤ mx then some (WrapRangeValue target mn mx) else none

/-- Embeds the two-argument `ApplyDeadband` overload (utilities.h lines 83-87):
`if ( x < range && x > -range ) x = T( 0 ); return x;`. -/
def ApplyDeadband (x range : ℚ) : ℚ :=
  if x < range ∧ -range < x then 0 else x

/-- Embeds C++ `std::max(a, b)`: `(a < b) ? b : a`. -/
def cppMax (a b : ℚ) : ℚ :=
  if a < b then b else a

/-- Embeds C++ `std::min(a, b)`: `(b < a) ? b : a`. -/
def cppMin (a b : ℚ) : ℚ :=
  if b < a then b else a

/-- Embeds the four-argument `ApplyDeadband` overload (utilities.h lines
98-102): `if ( x < range && x > -range ) x = T( 0 );
return std::min( std::max( x, min ), max );`. -/
def ApplyDeadbandMinMax (x range mn mx : ℚ) : ℚ :=
  let x := if x < range ∧ -range < x then 0 else x
  cppMin (cppMax x mn) mx

/-- Embeds `mapToRange` (utilities.h lines 172-176):
`return outputMin + (x - inputMin) * (outputMax - outputMin) /
(inputMax - inputMin);`.  Over `ℚ` the division is total (`q / 0 = 0`); the
theorems about it only quantify over `inputMin ≠ inputMax`, matching the
function's documented domain. -/
def mapToRange (x inputMin inputMax outputMin outputMax : ℚ) : ℚ :=
  outputMin + (x - inputMin) * (outputMax - outputMin) / (inputMax - inputMin)

/-- Claim C1: for every `a`, `b` and tolerance `tol ≥ 0`, `IsNumbersEqual a b
tol` returns `true` iff `|a - b| ≤ tol` (non-strict), is symmetric in `a` and
`b`, and is reflexive. -/
theorem isNumbersEqual_spec (a b tol : ℚ) (h : 0 ≤ tol) :
    (IsNumbersEqual a b tol = true ↔ |a - b| ≤ tol) ∧
    IsNumbersEqual a b tol = IsNumbersEqual b a tol ∧
    IsNumbersEqual a a tol = true := by
  refine ⟨by simp [IsNumbersEqual], ?_, ?_⟩
  · simp [IsNumbersEqual, abs_sub_comm]
  · simp [IsNumbersEqual, h]

/-- Witness for C1 at `a = 1`, `b = 2`, `tol = 1`. -/
theorem isNumbersEqual_spec_witness :
    (IsNumbersEqual 1 2 1 = true ↔ |(1 : ℚ) - 2| ≤ 1) ∧
    IsNumbersEqual 1 2 1 = IsNumbersEqual 2 1 1 ∧
    IsNumbersEqual 1 1 1 = true :=
  isNumbersEqual_spec 1 2 1 (by norm_num)

/-- Claim C2: under the asserted precondition `lo ≤ hi`, `WrapRange x lo hi`
returns a value in `[lo, hi]`, returns `x` itself when `x` is already in
`[lo, hi]`, and is idempotent; when the precondition is violated the assertion
fires (no value is produced, embedded as `none`). -/
theorem wrapRange_spec (x lo hi : ℚ) :
    (lo ≤ hi →
      WrapRange x lo hi = some (WrapRangeValue x lo hi) ∧
      lo ≤ WrapRangeValue x lo hi ∧
      WrapRangeValue x lo hi ≤ hi ∧
      (lo ≤ x → x ≤ hi → WrapRangeValue x lo hi = x) ∧
      WrapRangeValue (WrapRangeValue x lo hi) lo hi = WrapRangeValue x lo hi) ∧
    (hi < lo → WrapRange x lo hi = none) := by
  constructor
  · intro h
    refine ⟨by simp [WrapRange, h], ?_, ?_, ?_, ?_⟩
    · simp only [WrapRangeValue]
      split_ifs <;> linarith
    · simp only [WrapRangeValue]
      split_ifs <;> linarith
    · intro h1 h2
      simp only [WrapRangeValue]
      split_ifs <;> linarith
    · simp only [WrapRangeValue]
      split_ifs <;> linarith
  · intro h
    simp [WrapRange, not_le.mpr h]

/-- Witness for C2 at `x = 5`, `lo = 0`, `hi = 3` (precondition holds) and at
`lo = 3`, `hi = 0` (precondition violated). -/
theorem wrapRange_spec_witness :
    (WrapRange 5 0 3 = some (WrapRangeValue 5 0 3) ∧
      (0 : ℚ) ≤ WrapRangeValue 5 0 3 ∧
      WrapRangeValue 5 0 3 ≤ 3 ∧
      ((0 : ℚ) ≤ 5 → (5 : ℚ) ≤ 3 → WrapRangeValue 5 0 3 = 5) ∧
      WrapRangeValue (WrapRangeValue 5 0 3) 0 3 = WrapRangeValue 5 0 3) ∧
    WrapRange 5 3 0 = none :=
  ⟨(wrapRange_spec 5 0 3).1 (by norm_num), (wrapRange_spec 5 3 0).2 (by norm_num)⟩

/-- Claim C3: the non-clamped `ApplyDeadband` overload returns `0` when
`|x| < range` and returns `x` unchanged when `|x| ≥ range` (in particular at
the boundary `x = range` or `x = -range`). -/
theorem applyDeadband_spec (x range : ℚ) :
    ApplyDeadband x range = if |x| < range then 0 else x := by
  simp only [ApplyDeadband, abs_lt]
  split_ifs with h1 h2 h2 <;> first
    | rfl
    | (exact absurd ⟨h2.2, h2.1⟩ h1)
    | (exact absurd ⟨h1.2, h1.1⟩ h2)

/-- Claim C7: for `inputMin ≠ inputMax`, `mapToRange` is the linear map of
`[inputMin, inputMax]` onto `[outputMin, outputMax]`; in particular
`mapToRange 5 0 10 0 100 = 50`. -/
theorem mapToRange_spec :
    (∀ x a b c d : ℚ, a ≠ b →
      mapToRange x a b c d = c + (x - a) * (d - c) / (b - a)) ∧
    mapToRange 5 0 10 0 100 = 50 := by
  refine ⟨fun x a b c d _ => rfl, ?_⟩
  norm_num [mapToRange]

/-- Witness for C7 at `x = 1`, input range `[0, 2]`, output range `[0, 4]`. -/
theorem mapToRange_spec_witness :
    mapToRange 1 0 2 0 4 = 0 + ((1 : ℚ) - 0) * (4 - 0) / (2 - 0) :=
  mapToRange_spec.1 1 0 2 0 4 (by norm_num)

/-- Claim C10: the clamping `ApplyDeadband` overload has no precondition: it
totally computes `std::min(std::max(deadbanded x, min), max)`, its result is
always `≤ max`, and whenever `min > max` it returns `max` for every input. -/
theorem applyDeadbandMinMax_spec (x range mn mx : ℚ) :
    ApplyDeadbandMinMax x range mn mx = min (max (ApplyDeadband x range) mn) mx ∧
    ApplyDeadbandMinMax x range mn mx ≤ mx ∧
    (mx < mn → ApplyDeadbandMinMax x range mn mx = mx) := by
  have hmax : ∀ a b : ℚ, cppMax a b = max a b := by
    intro a b
    simp only [cppMax]
    split_ifs with h
    · exact (max_eq_right h.le).symm
    · exact (max_eq_left (not_lt.mp h)).symm
  have hmin : ∀ a b : ℚ, cppMin a b = min a b := by
    intro a b
    simp only [cppMin]
    split_ifs with h
    · exact (min_eq_right h.le).symm
    · exact (min_eq_left (not_lt.mp h)).symm
  have hval : ApplyDeadbandMinMax x range mn mx
      = min (max (ApplyDeadband x range) mn) mx := by
    simp only [ApplyDeadbandMinMax, ApplyDeadband, hmax, hmin]
  refine ⟨hval, ?_, ?_⟩
  · rw [hval]; exact min_le_right _ _
  · intro h
    rw [hval]
    exact min_eq_right (le_of_lt (lt_of_lt_of_le h (le_max_right _ _)))

/-- Witness for C10 at `x = 0`, `range = 1`, `min = 5 > max = 2`: the result is
`max`. -/
theorem applyDeadbandMinMax_spec_witness :
    ApplyDeadbandMinMax 0 1 5 2 = 2 :=
  (applyDeadbandMinMax_spec 0 1 5 2).2.2 (by norm_num)

/-! ### The string-to-matrix parser `StringToEigen` (utilities.h lines 233-262)

The C++ walks the input string with a cursor `pos`, reading characters with
`str.at(pos)`, which throws `std::out_of_range` past the end of the string.
The walk is embedded as structural recursion on the suffix `s.drop pos`, the
cursor being carried alongside; a thrown error is an `Except.error`. -/

/-- The three ways the parse aborts: `str.at` past the end of the string
(`std::out_of_range`), a first non-space character that is not the open
bracket (`std::runtime_error`), and a malformed number handed to the numeric
parser. -/
inductive ParseError where
  | outOfRange
  | noBracket
  | badNumber
deriving DecidableEq, Repr

/-- Value of a list of decimal digits, most significant first. -/
def natFromDigits (cs : List Char) : Nat :=
  cs.foldl (fun n c => 10 * n + (c.toNat - 48)) 0

/-- Modelled from the spec: `StringToNumber` (utilities.h lines 206-215)
delegates to the C library parser `std::stod` / `std::stof`, which is not part
of this repository.  It is modelled here, per the spec ("parses a string to a
floating-point type; fails with a parse error on malformed input"), on the
fragment of input the matrix parser exercises in the claims:
optionally-signed decimal integer literals, `none` (the thrown parse error)
on malformed input. -/
def StringToNumber (cs : List Char) : Option ℚ :=
  match cs with
  | '-' :: rest =>
      if rest ≠ [] ∧ rest.all Char.isDigit
      then some (-(natFromDigits rest : ℚ)) else none
  | _ =>
      if cs ≠ [] ∧ cs.all Char.isDigit
      then some ((natFromDigits cs : ℚ)) else none

/-- Cursor walk of `while ( str.at( pos ) == ' ' ) pos++;` on the suffix
`s.drop pos`; an empty suffix means `str.at(pos)` threw `std::out_of_range`. -/
def skipSpacesAux : List Char → Nat → Except ParseError Nat
  | [], _ => .error .outOfRange
  | c :: rest, pos => if c = ' ' then skipSpacesAux rest (pos + 1) else .ok pos

/-- Embeds the seek-past-whitespace loops of `StringToEigen` (utilities.h
lines 238-239 and 250-251): returns the position of the first non-space
character at or after `pos`. -/
def skipSpaces (s : List Char) (pos : Nat) : Except ParseError Nat :=
  skipSpacesAux (s.drop pos) pos

/-- Cursor walk of `while ( str.at( pos ) != ',' && str.at( pos ) != ']' )
pos++;` on the suffix `s.drop pos`. -/
def seekEndAux : List Char → Nat → Except ParseError Nat
  | [], _ => .error .outOfRange
  | c :: rest, pos =>
      if c = ',' ∨ c = ']' then .ok pos else seekEndAux rest (pos + 1)

/-- Embeds the seek-to-end-of-number loop of `StringToEigen` (utilities.h
lines 255-256): returns the position of the first `,` or `]` at or after
`pos`. -/
def seekEnd (s : List Char) (pos : Nat) : Except ParseError Nat :=
  seekEndAux (s.drop pos) pos

/-- Embeds the doubly nested fill loop of `StringToEigen` (utilities.h lines
247-260), flattened over the `Rows * Cols` row-major visits of `m(i, j)`:
each step skips whitespace, seeks to the next `,` or `]`, converts the
substring `str.substr(start, pos - start)` with `StringToNumber`, and then
executes `pos++` (consuming one character without validating it).  Returns
the numbers in visit order together with the final cursor. -/
def readNumbers (s : List Char) : Nat → Nat → Except ParseError (List ℚ × Nat)
  | 0, pos => .ok ([], pos)
  | n + 1, pos => do
      let pos1 ← skipSpaces s pos
      let pos2 ← seekEnd s pos1
      match StringToNumber ((s.drop pos1).take (pos2 - pos1)) with
      | none => .error .badNumber
      | some x => do
          let (xs, pos3) ← readNumbers s n (pos2 + 1)
          .ok (x :: xs, pos3)

/-- Packs the row-major visit order of the fill loop into the matrix rows:
row `i` holds visits `i*cols` to `i*cols + cols - 1`. -/
def chunkRows : Nat → Nat → List ℚ → List (List ℚ)
  | 0, _, _ => []
  | r + 1, cols, xs => xs.take cols :: chunkRows r cols (xs.drop cols)

/-- Embeds `StringToEigen` (utilities.h lines 233-262) for a `rows × cols`
matrix, represented as its list of rows: skip leading whitespace, require
`[`, then read `rows * cols` numbers row-major.  Everything after the
character consumed by the final `pos++` is ignored, as in the C++. -/
def StringToEigen (rows cols : Nat) (s : List Char) :
    Except ParseError (List (List ℚ)) :=
  match skipSpaces s 0 with
  | .error e => .error e
  | .ok pos =>
      match s.get? pos with
      | some c =>
          if c = '[' then
            match readNumbers s (rows * cols) (pos + 1) with
            | .error e => .error e
            | .ok (xs, _) => .ok (chunkRows rows cols xs)
          else .error .noBracket
      | none => .error .outOfRange

instance decEqExcept {ε α : Type} [DecidableEq ε] [DecidableEq α] :
    DecidableEq (Except ε α) := fun x y =>
  match x, y with
  | .ok a, .ok b =>
      if h : a = b then isTrue (by rw [h]) else isFalse (by simp [h])
  | .error a, .error b =>
      if h : a = b then isTrue (by rw [h]) else isFalse (by simp [h])
  | .ok _, .error _ => isFalse (fun h => Except.noConfusion h)
  | .error _, .ok _ => isFalse (fun h => Except.noConfusion h)

theorem chunkRows_flatten (rows cols : Nat) (xs : List ℚ)
    (h : xs.length = rows * cols) : (chunkRows rows cols xs).flatten = xs := by
  induction rows generalizing xs with
  | zero =>
      simp only [Nat.zero_mul] at h
      simp [chunkRows, List.length_eq_zero.mp h]
  | succ r ih =>
      have hd : (xs.drop cols).length = r * cols := by
        simp only [List.length_drop, h, Nat.succ_mul]
        omega
      simp [chunkRows, ih (xs.drop cols) hd]

theorem chunkRows_lengths (rows cols : Nat) (xs : List ℚ)
    (h : xs.length = rows * cols) :
    (chunkRows rows cols xs).map List.length = List.replicate rows cols := by
  induction rows generalizing xs with
  | zero => simp [chunkRows]
  | succ r ih =>
      have hc : cols ≤ xs.length := by
        rw [h, Nat.succ_mul]
        omega
      have hd : (xs.drop cols).length = r * cols := by
        simp only [List.length_drop, h, Nat.succ_mul]
        omega
      simp [chunkRows, List.replicate_succ, List.length_take,
        Nat.min_eq_left hc, ih (xs.drop cols) hd]

theorem skipSpacesAux_all_spaces :
    ∀ (s : List Char), (∀ c ∈ s, c = ' ') → ∀ pos : Nat,
      skipSpacesAux s pos = .error .outOfRange
  | [], _, _ => rfl
  | c :: rest, hs, pos => by
      have hc : c = ' ' := hs c (List.mem_cons_self c rest)
      have ih := skipSpacesAux_all_spaces rest
        (fun d hd => hs d (List.mem_cons_of_mem c hd)) (pos + 1)
      simp [skipSpacesAux, hc, ih]

/-- Claim C4: parsing `"[1,2,3,4]"` as a 2×2 matrix succeeds with rows
`[1, 2]` and `[3, 4]`; in general the flat visit-order list of numbers is
packed row-major: each row has `cols` entries and concatenating the rows in
order recovers the flat list. -/
theorem stringToEigen_row_major :
    StringToEigen 2 2 ("[1,2,3,4]".toList) = .ok [[1, 2], [3, 4]] ∧
    ∀ rows cols (xs : List ℚ), xs.length = rows * cols →
      (chunkRows rows cols xs).flatten = xs ∧
      (chunkRows rows cols xs).map List.length = List.replicate rows cols := by
  exact ⟨by decide, fun rows cols xs h =>
    ⟨chunkRows_flatten rows cols xs h, chunkRows_lengths rows cols xs h⟩⟩

/-- Witness for C4's row-major packing at a concrete 2×3 flat list. -/
theorem stringToEigen_row_major_witness :
    (chunkRows 2 3 [1, 2, 3, 4, 5, 6]).flatten = [1, 2, 3, 4, 5, 6] ∧
    (chunkRows 2 3 [1, 2, 3, 4, 5, 6]).map List.length = List.replicate 2 3 :=
  stringToEigen_row_major.2 2 3 [1, 2, 3, 4, 5, 6] (by decide)

/-- Claim C5: the parse aborts with an error — no partial matrix — whenever
the first non-space character is not `[` (for any matrix size), whenever the
initial whitespace scan runs off the end of the string (for any matrix size),
and on truncated input such as `"[1,2,3"` read as a 2×2 matrix. -/
theorem stringToEigen_failfast :
    (∀ rows cols (s : List Char) (pos : Nat) (c : Char),
      skipSpaces s 0 = .ok pos → s.get? pos = some c → c ≠ '[' →
      StringToEigen rows cols s = .error .noBracket) ∧
    (∀ rows cols (s : List Char), (∀ c ∈ s, c = ' ') →
      StringToEigen rows cols s = .error .outOfRange) ∧
    StringToEigen 2 2 ("[1,2,3".toList) = .error .outOfRange := by
  refine ⟨?_, ?_, by decide⟩
  · intro rows cols s pos c h1 h2 h3
    simp only [StringToEigen, h1, h2, if_neg h3]
  · intro rows cols s hs
    have hsk : skipSpaces s 0 = .error .outOfRange :=
      skipSpacesAux_all_spaces s hs 0
    simp only [StringToEigen, hsk]

/-- Witness for C5: a first non-space character `x` (not `[`) aborts the
parse, and an all-space string aborts with the out-of-range error. -/
theorem stringToEigen_failfast_witness :
    StringToEigen 2 2 (" x1,2,3,4]".toList) = .error .noBracket ∧
    StringToEigen 2 2 ("   ".toList) = .error .outOfRange :=
  ⟨stringToEigen_failfast.1 2 2 (" x1,2,3,4]".toList) 1 'x'
      (by decide) (by decide) (by decide),
    stringToEigen_failfast.2.1 2 2 ("   ".toList) (by decide)⟩

/-- Claim C9: the character consumed after the final number is never
validated: parsing `"[1,2,3,4,5,6]"` as a 2×2 matrix succeeds with rows
`[1, 2]` and `[3, 4]`, silently discarding `5` and `6`, even though the
character consumed after the fourth number (position 8) is `,`, not `]`. -/
theorem stringToEigen_trailing_ignored :
    StringToEigen 2 2 ("[1,2,3,4,5,6]".toList) = .ok [[1, 2], [3, 4]] ∧
    ("[1,2,3,4,5,6]".toList).get? 8 = some ',' := by
  decide

/-! ### `StringFormat` (utilities.h lines 272-280) -/

/-- Modelled from the spec: the C library `snprintf` used by `StringFormat` is
not part of this repository.  Its trial pass `snprintf(nullptr, 0, ...)` is
modelled by its integer result `trial` (the number of characters the
formatted output needs, negative on error) together with the formatted
output `out` itself; the second `snprintf` writes `out` (null-terminated)
into the buffer of `size = trial + 1` bytes.  `StringFormat` throws iff
`size <= 0` and otherwise returns the first `size - 1` buffer characters —
the content without the terminating null. -/
def StringFormat (trial : Int) (out : List Char) : Except String (List Char) :=
  let size := trial + 1
  if size ≤ 0 then .error "Error during formatting."
  else .ok (out.take (size - 1).toNat)

/-- Claim C8: `StringFormat` throws iff the trial pass reports a negative
required size; a trial result of zero succeeds with the empty string; and
when the trial pass reports the length of the formatted output, the whole
output is returned without the terminating null. -/
theorem stringFormat_spec (trial : Int) (out : List Char) :
    (trial < 0 → StringFormat trial out = .error "Error during formatting.") ∧
    (0 ≤ trial → StringFormat trial out = .ok (out.take trial.toNat)) ∧
    StringFormat 0 out = .ok [] ∧
    ((out.length : Int) = trial → StringFormat trial out = .ok out) := by
  refine ⟨?_, ?_, ?_, ?_⟩
  · intro h
    simp only [StringFormat]
    rw [if_pos (by omega)]
  · intro h
    simp only [StringFormat]
    rw [if_neg (by omega)]
    have ht : (trial + 1 - 1).toNat = trial.toNat := by omega
    rw [ht]
  · simp [StringFormat]
  · intro h
    simp only [StringFormat]
    rw [if_neg (by omega)]
    have ht : (trial + 1 - 1).toNat = out.length := by omega
    rw [ht, List.take_length]

/-- Witness for C8: a trial result of `-1` throws, a trial result of `0`
returns the empty string, and a trial result of `2` on a two-character output
returns it whole. -/
theorem stringFormat_spec_witness :
    StringFormat (-1) [] = .error "Error during formatting." ∧
    StringFormat 0 ['a', 'b'] = .ok [] ∧
    StringFormat 2 ['a', 'b'] = .ok ['a', 'b'] :=
  ⟨(stringFormat_spec (-1) []).1 (by norm_num),
    (stringFormat_spec 0 ['a', 'b']).2.2.1,
    (stringFormat_spec 2 ['a', 'b']).2.2.2 (by decide)⟩

end Cyberdog
